import Mathlib

/-!
Verification development for the `twba_downloader` repository.

The Rust sources are shallowly embedded: pure text processing is modelled by
computable functions over `List Char` / `List String`, effectful pipeline code
(network, filesystem, database) is modelled by explicit state passing plus an
event trace, and fallible code returns `Except` / `Option` (`Option.none`
models a Rust panic).

Modelling conventions, kept throughout:
* Rust `String` / `&str` values are modelled as Lean `String`; the character
  level operations (`split`, `replace`, `trim`, `strip_prefix`, ...) are
  re-implemented structurally over `List Char` so that all definitions are
  executable and kernel-reducible.
* `f32` duration values are modelled as exact scaled decimals (`Dec`, a
  mantissa with a power of ten, denoting a rational via `decValue`); the Rust
  float parser is modelled on finite decimal/exponent literals (the special
  forms `inf` / `NaN` and float rounding/overflow are outside the model, and
  no claim depends on a duration value beyond exact decimal literals).
* `PathBuf` is modelled as `String`, with `Path::join` as `/`-concatenation.
* Timestamps are modelled by a civil date-time record plus an abstract
  "now" instant measured in seconds.
-/

namespace Twba

/-! ## Character-list string utilities (Rust `str` operations) -/

/-- `takePre p l`: strip the prefix `p` from `l` (Rust `str::strip_prefix`). -/
def takePre : List Char → List Char → Option (List Char)
  | [], l => some l
  | _ :: _, [] => none
  | p :: ps, c :: cs => if c = p then takePre ps cs else none

/-- Whether `p` is a prefix of `l` (Rust `str::starts_with`). -/
def isPre (p l : List Char) : Bool := (takePre p l).isSome

/-- Whether `l` contains `p` as a substring (Rust `str::contains`). -/
def containsL (p : List Char) : List Char → Bool
  | [] => (takePre p []).isSome
  | c :: cs => isPre p (c :: cs) || containsL p cs

/-- Split `l` at the first occurrence of `p`: returns the part strictly before
the occurrence and the part strictly after it, or `none` if `p` does not
occur.  Building block for Rust `split` / `replace`. -/
def splitFirst (p : List Char) : List Char → Option (List Char × List Char)
  | [] => (takePre p []).map (fun r => ([], r))
  | c :: cs =>
    match takePre p (c :: cs) with
    | some r => some ([], r)
    | none =>
      match splitFirst p cs with
      | some (a, b) => some (c :: a, b)
      | none => none

/-- Fuelled worker for `splitAllL` (each found occurrence of a nonempty
pattern strictly shrinks the remainder, so `l.length + 1` fuel suffices). -/
def splitAllAux (p : List Char) : Nat → List Char → List (List Char)
  | 0, l => [l]
  | fuel + 1, l =>
    match splitFirst p l with
    | none => [l]
    | some (a, b) => a :: splitAllAux p fuel b

/-- Rust `str::split` by a (nonempty) string pattern, collected to a list. -/
def splitAllL (p l : List Char) : List (List Char) := splitAllAux p (l.length + 1) l

/-- Fuelled worker for `replaceL`. -/
def replaceAux (p r : List Char) : Nat → List Char → List Char
  | 0, l => l
  | fuel + 1, l =>
    match splitFirst p l with
    | none => l
    | some (a, b) => a ++ r ++ replaceAux p r fuel b

/-- Rust `str::replace`: replace every occurrence of `p` by `r`. -/
def replaceL (p r l : List Char) : List Char := replaceAux p r (l.length + 1) l

/-- Drop trailing characters satisfying `f`. -/
def dropEndWhile (f : Char → Bool) (l : List Char) : List Char :=
  (l.reverse.dropWhile f).reverse

/-- Rust `str::trim` (whitespace from both ends). -/
def trimL (l : List Char) : List Char :=
  dropEndWhile Char.isWhitespace (l.dropWhile Char.isWhitespace)

/-- Rust `str::trim_matches c` (the character `c` from both ends). -/
def trimCharL (c : Char) (l : List Char) : List Char :=
  dropEndWhile (fun x => x = c) (l.dropWhile (fun x => x = c))

/-- String-level wrappers. -/
def containsS (s p : String) : Bool := containsL p.data s.data

def replaceS (s p r : String) : String := String.mk (replaceL p.data r.data s.data)

def trimS (s : String) : String := String.mk (trimL s.data)

def stripPreS (p s : String) : Option String := (takePre p.data s.data).map String.mk

def startsWithS (p s : String) : Bool := isPre p.data s.data

/-! ## Number parsing -/

/-- Accumulate decimal digits; fails on any non-digit character. -/
def parseDigitsAux : List Char → Nat → Option Nat
  | [], acc => some acc
  | c :: cs, acc =>
    if c.isDigit then parseDigitsAux cs (acc * 10 + (c.toNat - 48)) else none

/-- Parse a nonempty all-digit string as a natural number. -/
def parseDigits : List Char → Option Nat
  | [] => none
  | l => parseDigitsAux l 0

/-- Value of an all-digit list (no emptiness requirement), for fraction parts. -/
def digitsVal (l : List Char) : Nat := l.foldl (fun a c => a * 10 + (c.toNat - 48)) 0

/-- Rust `str::parse::<u32>()`: an optional `+` sign, then decimal digits,
with overflow above `2^32 - 1` rejected. -/
def parseU32 (s : String) : Option Nat :=
  let l := match s.data with
    | '+' :: rest => rest
    | l => l
  (parseDigits l).bind (fun n => if n < 2 ^ 32 then some n else none)

/-- An exact scaled decimal `mant * 10 ^ exp`: the model of a parsed `f32`
value (floats are modelled exactly; rounding, overflow and the non-finite
literal forms `inf` / `NaN` are outside the model). -/
structure Dec where
  mant : Int
  exp : Int
  deriving DecidableEq, Repr

/-- The rational number a `Dec` denotes. -/
def decValue (d : Dec) : Rat := (d.mant : Rat) * (10 : Rat) ^ d.exp

/-- Rust `str::parse::<f32>()`, modelled as an exact scaled decimal on finite
literals with optional sign, fraction and exponent. -/
def parseF32 (s : String) : Option Dec :=
  let (sgn, l) : Int × List Char := match s.data with
    | '+' :: rest => (1, rest)
    | '-' :: rest => (-1, rest)
    | l => (1, l)
  let ip := l.takeWhile Char.isDigit
  let r1 := l.dropWhile Char.isDigit
  let core : Option (Int × Int × List Char) :=
    match r1 with
    | '.' :: r2 =>
      let fp := r2.takeWhile Char.isDigit
      let r3 := r2.dropWhile Char.isDigit
      if ip.isEmpty && fp.isEmpty then none
      else some (sgn * (digitsVal ip * 10 ^ fp.length + digitsVal fp : Nat),
        -(fp.length : Int), r3)
    | _ => if ip.isEmpty then none else some (sgn * (digitsVal ip : Nat), 0, r1)
  core.bind (fun (m, k, rest) =>
    match rest with
    | [] => some ⟨m, k⟩
    | 'e' :: re => parseF32Exp m k re
    | 'E' :: re => parseF32Exp m k re
    | _ => none)
where
  /-- Parse the exponent part after `e`/`E` and apply it. -/
  parseF32Exp (m k : Int) (l : List Char) : Option Dec :=
    let (esgn, el) : Bool × List Char := match l with
      | '+' :: rest => (true, rest)
      | '-' :: rest => (false, rest)
      | l => (true, l)
    (parseDigits el).map (fun e =>
      if esgn then ⟨m, k + (e : Int)⟩ else ⟨m, k - (e : Int)⟩)

/-! ## Error types (from `src/errors.rs`; payloads that are foreign `io`/
`reqwest`/`chrono` error values are dropped, path payloads kept as `String`) -/

inductive PlaylistParseError
  | Eof
  | InvalidTimeFormat
  deriving DecidableEq, Repr

inductive MalformedPlaylistError
  | Empty
  | NoQualities
  | Parse (e : PlaylistParseError)
  | InvalidUrl
  deriving DecidableEq, Repr

inductive DownloadFileError
  | TargetFolderIsNotEmpty (p : String)
  | TargetFolderIsNotADirectory (p : String)
  | TargetAlreadyExists (p : String)
  | CouldNotCreateTargetFolder
  | FileCreation
  | Read
  | Write
  | Filesystem
  | Ffmpeg
  | Canonicalization
  | DownloadBackoff
  | DownloadReqwest
  deriving DecidableEq, Repr

inductive DownloadError
  | MalformedPlaylist (e : MalformedPlaylistError)
  | Backoff
  | Database
  | Reqwest
  | AccessTokenJsonParse
  | AccessTokenEmpty
  | File (e : DownloadFileError)
  | LoadConfig
  deriving DecidableEq, Repr

/-! ## Dates (`convert_twitch_date`)

`chrono::NaiveDateTime::parse_from_str(date, "%Y-%m-%dT%H:%M:%S")` is
modelled by a fixed-format parser into a civil date-time record; the record is
mapped to seconds on an abstract timeline via the standard days-from-civil
formula so that an age in whole hours can be computed against a `now` instant
(also in seconds).  No claim depends on the age value itself. -/

structure CivilDT where
  year : Int
  month : Nat
  day : Nat
  hour : Nat
  minute : Nat
  second : Nat
  deriving DecidableEq, Repr

/-- Parse a fixed-width decimal field. -/
def parseNatField (l : List Char) : Option Nat := parseDigits l

/-- Split a character list at a single expected separator character. -/
def splitAtChar (c : Char) (l : List Char) : Option (List Char × List Char) :=
  splitFirst [c] l

/-- `Modelled after chrono`: parse `YYYY-MM-DDTHH:MM:SS` with basic range
validation on the calendar fields. -/
def parseTwitchDT (l : List Char) : Option CivilDT := do
  let (datePart, timePart) ← splitAtChar 'T' l
  let (ys, rest1) ← splitAtChar '-' datePart
  let (ms, ds) ← splitAtChar '-' rest1
  let (hs, rest2) ← splitAtChar ':' timePart
  let (mins, ss) ← splitAtChar ':' rest2
  let y ← parseNatField ys
  let mo ← parseNatField ms
  let d ← parseNatField ds
  let h ← parseNatField hs
  let mi ← parseNatField mins
  let s ← parseNatField ss
  if 1 ≤ mo ∧ mo ≤ 12 ∧ 1 ≤ d ∧ d ≤ 31 ∧ h ≤ 23 ∧ mi ≤ 59 ∧ s ≤ 59 then
    some ⟨(y : Int), mo, d, h, mi, s⟩
  else none

/-- Days since 1970-01-01 of a civil date (standard days-from-civil formula). -/
def daysFromCivil (y : Int) (m d : Nat) : Int :=
  let y' : Int := if m ≤ 2 then y - 1 else y
  let era : Int := (if 0 ≤ y' then y' else y' - 399) / 400
  let yoe : Int := y' - era * 400
  let mp : Int := ((m : Int) + 9) % 12
  let doy : Int := (153 * mp + 2) / 5 + (d : Int) - 1
  let doe : Int := yoe * 365 + yoe / 4 - yoe / 100 + doy
  era * 146097 + doe - 719468

/-- Seconds since the epoch of a civil date-time. -/
def civilSecs (t : CivilDT) : Int :=
  daysFromCivil t.year t.month t.day * 86400
    + (t.hour : Int) * 3600 + (t.minute : Int) * 60 + (t.second : Int)

/-- `convert_twitch_date` from `src/twitch/mod.rs`: trim whitespace, trim
`"` quotes, parse against the fixed format, else `InvalidTimeFormat`. -/
def convert_twitch_date (date : String) : Except PlaylistParseError CivilDT :=
  let l := trimCharL '"' (trimL date.data)
  match parseTwitchDT l with
  | some t => .ok t
  | none => .error .InvalidTimeFormat

/-- `now.signed_duration_since(date).num_hours()`: whole hours, truncated
toward zero as `chrono` does (`now` in seconds since epoch). -/
def hoursSince (dt : CivilDT) (now : Int) : Int := (now - civilSecs dt).tdiv 3600

/-! ## `parse_playlist` (media-manifest parser, `src/twitch/mod.rs`)

The Rust function consumes `playlist.lines()`; the embedding works on the
line list (`rustLines` maps a text to it) and threads the mutable `age` and
`parts` accumulators explicitly.  The `HashMap<String, f32>` is modelled as
an association list with unique keys: `hmInsert` overwrites in place. -/

/-- Rust `str::lines()`: split on `\n`, drop one trailing empty line, strip a
trailing `\r` from each line. -/
def rustLines (s : String) : List String :=
  let ls := splitAllL ['\n'] s.data
  let ls := match ls.getLast? with
    | some [] => ls.dropLast
    | _ => ls
  ls.map (fun l => String.mk (match l.getLast? with
    | some '\r' => l.dropLast
    | _ => l))

/-- `HashMap::insert` on an association list with unique keys. -/
def hmInsert (k : String) (v : Dec) : List (String × Dec) → List (String × Dec)
  | [] => [(k, v)]
  | (k', v') :: t => if k' = k then (k, v) :: t else (k', v') :: hmInsert k v t

/-- The duration of one `#EXTINF:` tag: trim `,`, parse as float, default 0. -/
def extinfDuration (pd : String) : Dec :=
  (parseF32 (String.mk (trimCharL ',' pd.data))).getD ⟨0, 0⟩

/-- The broadcast-timestamp line prefix. -/
def STREAMED_DATE_IDENT : String := "#ID3-EQUIV-TDTG:"

/-- Loop body of `parse_playlist`, translated from the Rust `loop` over
`playlist.lines()`; `age`/`parts` are the mutable locals. -/
def parsePlaylistLoop (now : Int) (age : Option Int) (parts : List (String × Dec)) :
    List String → Except MalformedPlaylistError (Option Int × List (String × Dec))
  | [] => .ok (age, parts)
  | line :: rest =>
    match stripPreS STREAMED_DATE_IDENT line with
    | some date =>
      match convert_twitch_date (trimS date) with
      | .error e => .error (.Parse e)
      | .ok dt => parsePlaylistLoop now (some (hoursSince dt now)) parts rest
    | none =>
      match stripPreS "#EXTINF:" line with
      | some pd =>
        match rest with
        | [] => .error (.Parse .Eof)
        | l1 :: rest1 =>
          if startsWithS "#EXT-X-BYTERANGE:" l1 then
            match rest1 with
            | [] => .error (.Parse .Eof)
            | l2 :: rest2 =>
              parsePlaylistLoop now age (hmInsert (trimS l2) (extinfDuration pd) parts) rest2
          else
            parsePlaylistLoop now age (hmInsert (trimS l1) (extinfDuration pd) parts) rest1
      | none => parsePlaylistLoop now age parts rest

/-- `parse_playlist` over a line list. -/
def parse_playlist_lines (now : Int) (lines : List String) :
    Except MalformedPlaylistError (Option Int × List (String × Dec)) :=
  parsePlaylistLoop now none [] lines

/-- `parse_playlist` from `src/twitch/mod.rs` (text form). -/
def parse_playlist (now : Int) (playlist : String) :
    Except MalformedPlaylistError (Option Int × List (String × Dec)) :=
  parse_playlist_lines now (rustLines playlist)

/-! Spec-side descriptions of the media-manifest parser (§4.3 of the spec),
written from the spec's words, to be compared with the embedding above. -/

/-- Modelled from the spec: the sequence of (trimmed reference, duration)
pairs obtained by scanning the lines sequentially — a broadcast-timestamp
line yields no pair, a duration-tag line pairs with the immediately
following line, transparently skipping one byte-range line; the consumed
reference line is not itself scanned as a tag. -/
def specExtinfPairs : List String → List (String × Dec)
  | [] => []
  | line :: rest =>
    match stripPreS STREAMED_DATE_IDENT line with
    | some _ => specExtinfPairs rest
    | none =>
      match stripPreS "#EXTINF:" line with
      | some pd =>
        match rest with
        | [] => []
        | l1 :: rest1 =>
          if startsWithS "#EXT-X-BYTERANGE:" l1 then
            match rest1 with
            | [] => []
            | l2 :: rest2 => (trimS l2, extinfDuration pd) :: specExtinfPairs rest2
          else (trimS l1, extinfDuration pd) :: specExtinfPairs rest1
      | none => specExtinfPairs rest

/-- Modelled from the spec: the scan reaches a duration-tag line (or the
byte-range line following one) that is the last line of the text. -/
def danglingExtinf : List String → Bool
  | [] => false
  | line :: rest =>
    match stripPreS STREAMED_DATE_IDENT line with
    | some _ => danglingExtinf rest
    | none =>
      match stripPreS "#EXTINF:" line with
      | some _ =>
        match rest with
        | [] => true
        | l1 :: rest1 =>
          if startsWithS "#EXT-X-BYTERANGE:" l1 then
            match rest1 with
            | [] => true
            | _ :: rest2 => danglingExtinf rest2
          else danglingExtinf rest1
      | none => danglingExtinf rest

/-- Every broadcast-timestamp line of the text carries a parseable
timestamp (the proviso under which the Eof characterisation holds). -/
def tsWellFormed (lines : List String) : Bool :=
  lines.all (fun line =>
    match stripPreS STREAMED_DATE_IDENT line with
    | some date =>
      match convert_twitch_date (trimS date) with
      | .ok _ => true
      | .error _ => false
    | none => true)

/-! ## `get_playlist_from_quality_list` (Variant Selector, `src/twitch/mod.rs`)

The Rust function indexes `test[i + 2]` and `split("NAME=\"")[1]` without
bounds checks; `Option.none` at the top level models the panic.  The
`HashMap<&str, &str>` is modelled as an association list to which the loop
appends fresh keys only (the loop skips a label already present). -/

/-- First-match lookup in an association list. -/
def lookupS (k : String) : List (String × String) → Option String
  | [] => none
  | (k', v) :: t => if k' = k then some v else lookupS k t

/-- Left-biased choice on `Option`. -/
def oor (a b : Option String) : Option String :=
  match a with
  | some x => some x
  | none => b

/-- Whether a line is a media-variant declaration
(`line.contains("#EXT-X-MEDIA")`). -/
def isMediaDecl (line : String) : Bool := containsS line "#EXT-X-MEDIA"

/-- `line.split("NAME=\"").collect::<Vec<_>>()[1].split('"').collect::<Vec<_>>()[0]`:
`none` models the index panic when `NAME="` does not occur in the line. -/
def declName (line : String) : Option String :=
  match splitAllL "NAME=\"".data line.data with
  | _ :: second :: _ => some (String.mk ((splitAllL ['"'] second).headD []))
  | _ => none

/-- The enumerate loop of `get_playlist_from_quality_list`: the state is the
`qualties` map and the `highest_quality` local.  Because `url = test[i + 2]`
only looks ahead, the loop is driven by the suffix of lines from index `i`,
and `test[i + 2]` is element 1 of the suffix's tail. -/
def gplLoop : List String → List (String × String) → String →
    Option (List (String × String) × String)
  | [], m, hq => some (m, hq)
  | line :: rest, m, hq =>
    if isMediaDecl line then
      match declName line with
      | none => none
      | some nm =>
        if (lookupS nm m).isSome then gplLoop rest m hq
        else
          let hq' := if m.isEmpty then nm else hq
          match rest.get? 1 with
          | none => none
          | some url => gplLoop rest (m ++ [(nm, url)]) hq'
    else gplLoop rest m hq

/-- `get_playlist_from_quality_list` over the collected line list;
`Option.none` models a panic. -/
def get_playlist_from_quality_list (lines : List String) (quality : String) :
    Option (Except MalformedPlaylistError String) :=
  match gplLoop lines [] "" with
  | none => none
  | some (m, hq) =>
    some (match lookupS quality m with
      | some url => .ok url
      | none =>
        match lookupS hq m with
        | some url => .ok url
        | none => .error .NoQualities)

/-! Spec-side description of the Variant Selector (§4.2 of the spec), written
from the spec's words, to be compared with the embedding above. -/

/-- Modelled from the spec: all (label, URL-two-lines-after) pairs of the
variant declaration lines, in document order, duplicates kept. -/
def specVariants : List String → List (String × String)
  | [] => []
  | line :: rest =>
    (if isMediaDecl line then
      match declName line, rest.get? 1 with
      | some nm, some url => [(nm, url)]
      | _, _ => []
    else []) ++ specVariants rest

/-- Modelled from the spec: return the URL of the first declaration carrying
the requested label; if the label is absent, the URL of the first label seen
(the "highest quality" fallback); `NoQualities` when there are no variant
declarations at all. -/
def specVariantSelect (lines : List String) (quality : String) :
    Except MalformedPlaylistError String :=
  let vs := specVariants lines
  match lookupS quality vs with
  | some url => .ok url
  | none =>
    match vs with
    | [] => .error .NoQualities
    | (_, url) :: _ => .ok url

/-- Well-formedness of a master manifest for the selector: every variant
declaration line carries a `NAME="` attribute and is followed by at least two
more lines. -/
def wfMaster : List String → Bool
  | [] => true
  | line :: rest =>
    (if isMediaDecl line then (declName line).isSome && (rest.get? 1).isSome
     else true) && wfMaster rest

/-! ## `sort_parts` (Segment Ordering, `src/twitch/mod.rs`)

`PathBuf` is modelled as a `String`; `Path::join` concatenates with `/`.
`Option.none` from the key function models the panic on an unparseable file
number; `sort_parts` answers `none` when any key computation panics. -/

/-- `Path::join` on the string model of paths. -/
def pathJoin (base name : String) : String := base ++ "/" ++ name

/-- The final component of a path (Rust `Path::file_name`, simplified to the
text after the last `/`; degenerate components such as `..` are outside the
model). -/
def fileNameL (p : List Char) : List Char :=
  (p.reverse.takeWhile (fun c => ¬ c = '/')).reverse

/-- Rust `Path::file_stem` on a file name: the whole name if it contains no
`.` or if the part before the last `.` is empty, else that part. -/
def fileStemL (n : List Char) : List Char :=
  if containsL ['.'] n then
    let ext := (n.reverse.takeWhile (fun c => ¬ c = '.')).reverse
    let pre := n.take (n.length - ext.length - 1)
    if pre.isEmpty then n else pre
  else n

/-- `path.file_stem() ... .unwrap_or(String::from("0"))` composed with the
mute/unmute-marker stripping of `sort_parts`. -/
def strippedStem (path : String) : String :=
  let nm := fileNameL path.data
  if nm.isEmpty then "0"
  else replaceS (replaceS (String.mk (fileStemL nm)) "-muted" "") "-unmuted" ""

/-- The sort key of `sort_parts` (from the source): parse the stripped stem
as `u32`; on failure, panic unless the stem contains a `-`, else parse the
piece after the first `-` (index 1 of the split), panicking on failure. -/
def partSortKey (path : String) : Option Nat :=
  let number := strippedStem path
  match parseU32 number with
  | some n => some n
  | none =>
    if ¬ number.data.contains '-' then none
    else parseU32 (String.mk ((splitAllL ['-'] number.data).getD 1 []))

/-- Key value with panic mapped to 0 (only used when no key panics). -/
def partKeyD (path : String) : Nat := (partSortKey path).getD 0

/-- The sort relation of `sort_parts`. -/
def partLE (a b : String) : Prop := partKeyD a ≤ partKeyD b

instance : DecidableRel partLE := fun _ _ => Nat.decLe _ _

instance : IsTotal String partLE := ⟨fun _ _ => Nat.le_total _ _⟩

instance : IsTrans String partLE := ⟨fun _ _ _ => Nat.le_trans⟩

/-- `sort_parts`: a stable sort by `partSortKey`; `none` when computing any
key panics (which aborts the Rust process). -/
def sort_parts (files : List String) : Option (List String) :=
  if files.all (fun f => (partSortKey f).isSome) then
    some (List.insertionSort partLE files)
  else none

/-- Modelled from the spec (claim C2's recovery rule, for comparison): parse
the stripped stem directly; if that fails and the stem contains exactly one
separator, split on it and parse the second part; otherwise abort. -/
def specSortKeyClaim (path : String) : Option Nat :=
  let number := strippedStem path
  match parseU32 number with
  | some n => some n
  | none =>
    if (number.data.filter (fun c => c = '-')).length = 1 then
      parseU32 (String.mk ((splitAllL ['-'] number.data).getD 1 []))
    else none

/-- Modelled from the spec: `sort_parts` as claim C2 words it (aborts when
its recovery rule fails on any name). -/
def specSortPartsClaim (files : List String) : Option (List String) :=
  if files.all (fun f => (specSortKeyClaim f).isSome) then
    some (List.insertionSort partLE files)
  else none

/-! ## `download_part` / `try_download_part` (Segment Fetcher)

The transport-plus-filesystem effect of one fetch is abstracted as
`net : String → String → Except DownloadFileError Unit` (URL, target path):
it stands for building the request, executing it with backoff, creating the
target file and streaming the body, with any of those failures as the error.
Each model returns its result together with the trace of attempted fetches
(URL and target path, in order). -/

/-- One fetch attempt event: the URL requested and the target path given to
`File::create`. -/
structure FetchAttempt where
  url : String
  target : String
  deriving DecidableEq, Repr

/-- `try_download_part`: on success the fetched file lands at `target_path`
and that path is returned. -/
def try_download_part (net : String → String → Except DownloadFileError Unit)
    (url targetPath : String) : Except DownloadFileError String :=
  (net url targetPath).map (fun _ => targetPath)

/-- `download_part` from `src/twitch/mod.rs`, with the attempt trace.  Note:
the muted-fallback call in the source passes `folder_path` — not
`target_path` — as the target. -/
def download_part (net : String → String → Except DownloadFileError Unit)
    (part : String × Dec) (baseUrl : String) (folderPath : String)
    (tryUnmute : Bool) : Except DownloadFileError String × List FetchAttempt :=
  let name := part.1
  let partUrl := baseUrl ++ name
  let partUrlUnmuted := baseUrl ++ replaceS name "-muted" ""
  let tryUnmute := tryUnmute && containsS name "-muted"
  let targetPath := pathJoin folderPath name
  if tryUnmute then
    match try_download_part net partUrlUnmuted targetPath with
    | .ok path => (.ok path, [⟨partUrlUnmuted, targetPath⟩])
    | .error _ =>
      (try_download_part net partUrl folderPath,
       [⟨partUrlUnmuted, targetPath⟩, ⟨partUrl, folderPath⟩])
  else (try_download_part net partUrl targetPath, [⟨partUrl, targetPath⟩])

/-! ## `download_all_parts` (Download Orchestrator, fetch stage)

`get_download_info` (token exchange, manifest fetch and parse) is abstracted
as an already-obtained `DownloadInfo`; it performs no segment fetch.  The
bounded-concurrency `buffer_unordered` fan-out is modelled by one sequential
interleaving with the fail-fast `try_collect` semantics; `canonicalize` is
modelled as the identity on the success path. -/

structure DownloadInfo where
  vodAge : Option Int
  parts : List (String × Dec)
  baseUrl : String

/-- Sequential model of the fan-out: fetch each part, short-circuiting on the
first error; collects the produced paths and the fetch trace. -/
def fetchAllParts (net : String → String → Except DownloadFileError Unit)
    (baseUrl folderPath : String) (tryUnmute : Bool) :
    List (String × Dec) → Except DownloadFileError (List String) × List FetchAttempt
  | [] => (.ok [], [])
  | p :: rest =>
    match download_part net p baseUrl folderPath tryUnmute with
    | (.error e, evs) => (.error e, evs)
    | (.ok path, evs) =>
      match fetchAllParts net baseUrl folderPath tryUnmute rest with
      | (.error e, evs') => (.error e, evs ++ evs')
      | (.ok paths, evs') => (.ok (path :: paths), evs ++ evs')

/-- The clamp of the configured thread count (`download_all_parts`). -/
def clampThreadCount (threadCount amountOfParts : Nat) : Nat :=
  if threadCount < 1 then 1
  else if threadCount > amountOfParts then amountOfParts
  else threadCount

/-- `download_all_parts` from `src/twitch/mod.rs`. -/
def download_all_parts (net : String → String → Except DownloadFileError Unit)
    (threadCount : Nat) (info : DownloadInfo) (folderPath : String) :
    Except DownloadError (List String) × List FetchAttempt :=
  if info.parts.isEmpty then (.error (.MalformedPlaylist .Empty), [])
  else
    let tryUnmute := (info.vodAge.getD 999) < 24
    let _tc := clampThreadCount threadCount info.parts.length
    match fetchAllParts net info.baseUrl folderPath tryUnmute info.parts with
    | (.error e, evs) => (.error (.File e), evs)
    | (.ok paths, evs) => (.ok paths, evs)

/-! ## `TwitchClient::download_video` (Download Orchestrator, shell)

The filesystem at entry is abstracted by `FsState` (the predicates the code
queries about the final path and the scratch folder).  Everything after the
precondition checks — `download_all_parts` through `combine_parts_to_mp4` —
is abstracted as `rest`, an outcome paired with its fetch trace.
`create_dir_all` and the `read_dir` probe are modelled as succeeding; the
trace below records mutating/fetching events only, with `Bool`-blind success
of the final rename/cleanup. -/

structure FsState where
  finalExists : Bool
  folderExists : Bool
  folderIsDir : Bool
  folderNonEmpty : Bool
  deriving DecidableEq, Repr

/-- Events of one `download_video` run: scratch-folder creation, the fetch
attempts, the final rename and the scratch-folder removal. -/
inductive DvEvent
  | mkdir (p : String)
  | fetch (a : FetchAttempt)
  | renameTo (src dst : String)
  | removeDir (p : String)
  deriving DecidableEq, Repr

/-- `TwitchClient::download_video` from `src/twitch/mod.rs`. -/
def download_video (outputFolder videoId : String) (fs : FsState)
    (rest : Except DownloadError (List String) × List FetchAttempt) :
    Except DownloadError String × List DvEvent :=
  let folderPath := pathJoin outputFolder videoId
  let finalPath := pathJoin outputFolder (videoId ++ ".mp4")
  if fs.finalExists then
    (.error (.File (.TargetAlreadyExists finalPath)), [])
  else
    let pre : Except DownloadError (List DvEvent) :=
      if ¬ fs.folderExists then .ok [.mkdir folderPath]
      else if ¬ fs.folderIsDir then
        .error (.File (.TargetFolderIsNotADirectory folderPath))
      else if fs.folderNonEmpty then
        .error (.File (.TargetFolderIsNotEmpty folderPath))
      else .ok []
    match pre with
    | .error e => (.error e, [])
    | .ok evs0 =>
      match rest with
      | (.error e, fetches) => (.error e, evs0 ++ fetches.map .fetch)
      | (.ok _parts, fetches) =>
        (.ok finalPath,
         evs0 ++ fetches.map .fetch
           ++ [.renameTo (pathJoin folderPath "video.mp4") finalPath,
               .removeDir folderPath])

/-! ## Asset state machine, batch client (`src/client.rs`) and batch driver
(`src/main.rs`)

The `Status` enumeration and the `Videos` entity live in the external
`twba_local_db` crate. -/

/-- Modelled from the spec: the status domain of `twba_local_db` is not under
`src/`; §4.7 lists `NotStarted` (initial), `Downloading`, `Downloaded`,
`Failed`, and the downstream `Uploading`, `Uploaded`, sharing one ordered
enumeration so the backpressure range query `[Downloading, Uploading]` is
meaningful. -/
inductive Status
  | NotStarted
  | Downloading
  | Downloaded
  | Failed
  | Uploading
  | Uploaded
  deriving DecidableEq, Repr

/-- The stored discriminant order of `Status` (declaration order). -/
def statusVal : Status → Nat
  | .NotStarted => 0
  | .Downloading => 1
  | .Downloaded => 2
  | .Failed => 3
  | .Uploading => 4
  | .Uploaded => 5

/-- The persisted `Videos` row fields the core reads. -/
structure VideosModel where
  id : Nat
  twitchId : String
  status : Status
  createdAt : Int
  deriving DecidableEq, Repr

/-- The store is modelled as the list of rows in its return order; a query
without `order_by` returns the rows in that order. -/
def dbFilter (p : VideosModel → Bool) (db : List VideosModel) : List VideosModel :=
  db.filter p

/-- `Videos::find().filter(Status == NotStarted).limit(max).all(db)` from
`DownloaderClient::download_not_downloaded_videos`: no `order_by` is
requested. -/
def downloadCandidates (db : List VideosModel) (maxItems : Nat) : List VideosModel :=
  (dbFilter (fun v => v.status = .NotStarted) db).take maxItems

/-- Modelled from the spec (claim C3's wording, for comparison): candidates
with status `NotStarted`, ordered by creation time ascending, capped at the
configured maximum. -/
def specCandidatesClaim (db : List VideosModel) (maxItems : Nat) : List VideosModel :=
  (List.insertionSort (fun a b => a.createdAt ≤ b.createdAt)
    (dbFilter (fun v => v.status = .NotStarted) db)).take maxItems

/-- Events of `DownloaderClient::download_video`: a successful status update
persisted to the store, or the orchestrator run itself. -/
inductive ClientEvent
  | persist (s : Status)
  | runDownload
  deriving DecidableEq, Repr

/-- Whether an event is the persist of a terminal status of the core state
machine (`Downloaded` or `Failed`). -/
def isTerminalPersist : ClientEvent → Bool
  | .persist .Downloaded => true
  | .persist .Failed => true
  | _ => false

/-- `DownloaderClient::download_video` from `src/client.rs`: set
`Downloading` and persist, run the orchestrator, then persist exactly one
terminal status.  Store updates are modelled as succeeding (an update failure
aborts the flow with a database error and is outside the model). -/
def clientDownloadVideo (orchestrate : Except DownloadError String) :
    Except DownloadError Unit × List ClientEvent :=
  let evs0 : List ClientEvent := [.persist .Downloading, .runDownload]
  match orchestrate with
  | .ok _path => (.ok (), evs0 ++ [.persist .Downloaded])
  | .error e => (.error e, evs0 ++ [.persist .Failed])

/-- Whether a status lies in the inclusive range `[Downloading, Uploading]`
(`VideosColumn::Status.between(Status::Downloading, Status::Uploading)`). -/
def statusInRange (s : Status) : Bool :=
  statusVal .Downloading ≤ statusVal s && statusVal s ≤ statusVal .Uploading

/-- `get_amount_of_downloaded_but_not_uploaded_videos` from `src/main.rs`. -/
def countDownloadedNotUploaded (db : List VideosModel) : Nat :=
  (dbFilter (fun v => statusInRange v.status) db).length

/-- `run` from `src/main.rs`, reduced to its download activity: when the
backpressure count is at or above 3 the run performs no download attempts,
otherwise it processes the selected candidates in order; the result is the
list of asset ids attempted. -/
def runBatch (db : List VideosModel) (maxItems : Nat) : List Nat :=
  if 3 ≤ countDownloadedNotUploaded db then []
  else (downloadCandidates db maxItems).map (fun v => v.id)

/-! ## Helper lemmas -/

theorem oor_none_right (a : Option String) : oor a none = a := by
  cases a <;> rfl

theorem oor_assoc (a b c : Option String) : oor (oor a b) c = oor a (oor b c) := by
  cases a <;> rfl

theorem lookupS_append (k nm url : String) (m : List (String × String)) :
    lookupS k (m ++ [(nm, url)]) =
      oor (lookupS k m) (if nm = k then some url else none) := by
  induction m with
  | nil => simp [lookupS, oor]
  | cons hd tl ih =>
    obtain ⟨k', v⟩ := hd
    by_cases h : k' = k <;> simp [lookupS, h, ih, oor]

theorem lookupS_isSome_ne_nil {k : String} {m : List (String × String)}
    (h : (lookupS k m).isSome = true) : m ≠ [] := by
  intro he
  subst he
  simp [lookupS] at h

theorem oor_ite (c : Prop) [Decidable c] (u : String) (b : Option String) :
    oor (if c then some u else none) b = if c then some u else b := by
  split <;> rfl

/-- Invariant of the `get_playlist_from_quality_list` loop: on a well-formed
suffix the loop cannot panic, the final map looks up like the already
collected map extended by the first-occurrence variants of the suffix, and
the `highest_quality` local becomes the first label seen (when the map was
still empty). -/
theorem gplLoop_spec (lines : List String) :
    ∀ (m : List (String × String)) (hq : String), wfMaster lines = true →
      ∃ m' hq', gplLoop lines m hq = some (m', hq') ∧
        (∀ k, lookupS k m' = oor (lookupS k m) (lookupS k (specVariants lines))) ∧
        hq' = (if m.isEmpty then
                 match specVariants lines with
                 | [] => hq
                 | (nm, _) :: _ => nm
               else hq) ∧
        (m' = [] ↔ (m = [] ∧ specVariants lines = [])) := by
  induction lines with
  | nil =>
    intro m hq _
    refine ⟨m, hq, rfl, ?_, ?_, ?_⟩
    · intro k
      simp [specVariants, lookupS, oor_none_right]
    · cases m <;> simp [specVariants]
    · simp [specVariants]
  | cons line rest ih =>
    intro m hq hwf
    by_cases hd : isMediaDecl line
    · simp only [wfMaster, hd, if_true, Bool.and_eq_true] at hwf
      obtain ⟨⟨hnmS, hurlS⟩, hwfr⟩ := hwf
      obtain ⟨nm, hnm⟩ := Option.isSome_iff_exists.mp hnmS
      obtain ⟨url, hurl⟩ := Option.isSome_iff_exists.mp hurlS
      rw [List.get?_eq_getElem?] at hurl
      have hsv : specVariants (line :: rest) = (nm, url) :: specVariants rest := by
        simp [specVariants, hd, hnm, hurl, List.get?_eq_getElem?]
      by_cases hmem : (lookupS nm m).isSome
      · have hloop : gplLoop (line :: rest) m hq = gplLoop rest m hq := by
          simp [gplLoop, hd, hnm, hmem]
        have hmne : m ≠ [] := lookupS_isSome_ne_nil hmem
        obtain ⟨m', hq', heq, hlk, hhq, hiff⟩ := ih m hq hwfr
        refine ⟨m', hq', by rw [hloop, heq], ?_, ?_, ?_⟩
        · intro k
          rw [hlk k, hsv]
          by_cases hk : nm = k
          · subst hk
            obtain ⟨v, hv⟩ := Option.isSome_iff_exists.mp hmem
            simp [lookupS, hv, oor]
          · simp [lookupS, hk]
        · rw [hhq, hsv]
          have : m.isEmpty = false := by
            cases m with
            | nil => exact absurd rfl hmne
            | cons a t => rfl
          simp [this]
        · rw [hiff]
          simp [hsv, hmne]
      · have hnone : lookupS nm m = none := by
          cases hx : lookupS nm m with
          | none => rfl
          | some v => rw [hx] at hmem; simp at hmem
        have hloop : gplLoop (line :: rest) m hq =
            gplLoop rest (m ++ [(nm, url)]) (if m.isEmpty then nm else hq) := by
          simp [gplLoop, hd, hnm, hmem, hurl, List.get?_eq_getElem?]
        obtain ⟨m', hq', heq, hlk, hhq, hiff⟩ :=
          ih (m ++ [(nm, url)]) (if m.isEmpty then nm else hq) hwfr
        have hm2ne : m ++ [(nm, url)] ≠ [] := by simp
        have hm2e : (m ++ [(nm, url)]).isEmpty = false := by
          cases hx : m ++ [(nm, url)] with
          | nil => exact absurd hx hm2ne
          | cons a t => rfl
        refine ⟨m', hq', by rw [hloop, heq], ?_, ?_, ?_⟩
        · intro k
          rw [hlk k, lookupS_append, oor_assoc, hsv]
          by_cases hk : nm = k <;> simp [lookupS, hk, oor_ite, oor]
        · rw [hhq, hm2e, hsv]
          simp
        · rw [hiff]
          simp [hsv, hm2ne]
    · rw [wfMaster] at hwf
      simp only [hd, if_false, Bool.and_eq_true] at hwf
      have hloop : gplLoop (line :: rest) m hq = gplLoop rest m hq := by
        simp [gplLoop, hd]
      have hsv : specVariants (line :: rest) = specVariants rest := by
        simp [specVariants, hd]
      obtain ⟨m', hq', heq, hlk, hhq, hiff⟩ := ih m hq hwf.2
      exact ⟨m', hq', by rw [hloop, heq], by rw [hsv] at *; exact hlk,
        by rw [hsv]; exact hhq, by rw [hsv]; exact hiff⟩

/-- Claim C4 — the Variant Selector, on well-formed master manifests, returns
the URL two lines after the first declaration carrying the requested label;
falls back to the first label seen when the requested one is absent; and
fails with `NoQualities` exactly when there is no variant declaration.  The
function is pure, so the result depends only on the text and the label. -/
theorem variant_selector_follows_spec (lines : List String) (quality : String)
    (h : wfMaster lines = true) :
    get_playlist_from_quality_list lines quality =
      some (specVariantSelect lines quality) := by
  obtain ⟨m', hq', heq, hlk, hhq, hiff⟩ := gplLoop_spec lines [] "" h
  have hlk' : ∀ k, lookupS k m' = lookupS k (specVariants lines) := by
    intro k
    rw [hlk k]
    rfl
  rw [get_playlist_from_quality_list, heq, specVariantSelect]
  cases hv : lookupS quality (specVariants lines) with
  | some url => simp [hlk' quality, hv]
  | none =>
    cases hsv : specVariants lines with
    | nil =>
      have hm' : m' = [] := hiff.mpr ⟨rfl, hsv⟩
      rw [hsv] at hv
      simp [hlk' quality, hsv, hv, hm', lookupS]
    | cons hd tl =>
      obtain ⟨nm, url⟩ := hd
      have hhq' : hq' = nm := by simp [hhq, hsv]
      have hnmv : lookupS nm m' = some url := by
        rw [hlk' nm, hsv]
        simp [lookupS]
      rw [hsv] at hv
      rw [hhq']
      simp [hlk' quality, hsv, hv, hnmv]

/-- Witness for `variant_selector_follows_spec`: the spec §8 manifest shape —
`source` declared first mapping to `u2`, then `720p` mapping to `u1`;
requesting the absent `1080p` yields the fallback URL `u2`. -/
theorem variant_selector_follows_spec_witness :
    wfMaster ["#EXT-X-MEDIA:TYPE=VIDEO,NAME=\"source\"", "#EXT-X-STREAM-INF:A",
        "u2", "#EXT-X-MEDIA:TYPE=VIDEO,NAME=\"720p\"", "#EXT-X-STREAM-INF:B",
        "u1"] = true ∧
    get_playlist_from_quality_list
        ["#EXT-X-MEDIA:TYPE=VIDEO,NAME=\"source\"", "#EXT-X-STREAM-INF:A",
         "u2", "#EXT-X-MEDIA:TYPE=VIDEO,NAME=\"720p\"", "#EXT-X-STREAM-INF:B",
         "u1"] "1080p" = some (.ok "u2") := by
  have h : wfMaster ["#EXT-X-MEDIA:TYPE=VIDEO,NAME=\"source\"",
      "#EXT-X-STREAM-INF:A", "u2", "#EXT-X-MEDIA:TYPE=VIDEO,NAME=\"720p\"",
      "#EXT-X-STREAM-INF:B", "u1"] = true := rfl
  refine ⟨h, ?_⟩
  rw [variant_selector_follows_spec _ "1080p" h]
  rfl

theorem danglingExtinf_step_date {line pd : String}
    (h : stripPreS STREAMED_DATE_IDENT line = some pd) (rest : List String) :
    danglingExtinf (line :: rest) = danglingExtinf rest := by
  match rest with
  | [] => simp [danglingExtinf, h]
  | [a] => simp [danglingExtinf, h]
  | a :: b :: r => simp [danglingExtinf, h]

theorem danglingExtinf_step_other {line : String}
    (h1 : stripPreS STREAMED_DATE_IDENT line = none)
    (h2 : stripPreS "#EXTINF:" line = none) (rest : List String) :
    danglingExtinf (line :: rest) = danglingExtinf rest := by
  match rest with
  | [] => simp [danglingExtinf, h1, h2]
  | [a] => simp [danglingExtinf, h1, h2]
  | a :: b :: r => simp [danglingExtinf, h1, h2]

theorem danglingExtinf_step_ref {line pd l1 : String}
    (h1 : stripPreS STREAMED_DATE_IDENT line = none)
    (h2 : stripPreS "#EXTINF:" line = some pd)
    (hbr : startsWithS "#EXT-X-BYTERANGE:" l1 = false) (rest1 : List String) :
    danglingExtinf (line :: l1 :: rest1) = danglingExtinf rest1 := by
  match rest1 with
  | [] => simp [danglingExtinf, h1, h2, hbr]
  | a :: r => simp [danglingExtinf, h1, h2, hbr]

theorem danglingExtinf_step_byterange {line pd l1 : String} (l2 : String)
    (h1 : stripPreS STREAMED_DATE_IDENT line = none)
    (h2 : stripPreS "#EXTINF:" line = some pd)
    (hbr : startsWithS "#EXT-X-BYTERANGE:" l1 = true) (rest2 : List String) :
    danglingExtinf (line :: l1 :: l2 :: rest2) = danglingExtinf rest2 := by
  simp [danglingExtinf, h1, h2, hbr]

/-- Behaviour of the `parse_playlist` loop on inputs whose timestamp lines
all parse: it fails (necessarily with `Eof`) exactly when the sequential scan
leaves a duration tag (or its byte-range line) dangling at the end, and
otherwise succeeds with the mapping obtained by inserting the scanned
(reference, duration) pairs into the accumulator. -/
theorem parsePlaylistLoop_spec (now : Int) (lines : List String) :
    ∀ (age : Option Int) (parts : List (String × Dec)), tsWellFormed lines = true →
      (danglingExtinf lines = true →
        parsePlaylistLoop now age parts lines = .error (.Parse .Eof)) ∧
      (danglingExtinf lines = false →
        ∃ a, parsePlaylistLoop now age parts lines =
          .ok (a, (specExtinfPairs lines).foldl (fun m p => hmInsert p.1 p.2 m) parts)) := by
  induction lines using danglingExtinf.induct with
  | case1 =>
    intro age parts _
    refine ⟨by simp [danglingExtinf], fun _ => ⟨age, ?_⟩⟩
    simp [parsePlaylistLoop, specExtinfPairs]
  | case2 line rest pd hdate ih =>
    intro age parts hts
    simp only [tsWellFormed, List.all_cons, Bool.and_eq_true] at hts
    obtain ⟨h1, h2⟩ := hts
    simp only [hdate] at h1
    cases hc : convert_twitch_date (trimS pd) with
    | error e => rw [hc] at h1; simp at h1
    | ok dt =>
      have hdg := danglingExtinf_step_date hdate rest
      have hpl : parsePlaylistLoop now age parts (line :: rest) =
          parsePlaylistLoop now (some (hoursSince dt now)) parts rest := by
        rw [parsePlaylistLoop.eq_def]
        simp [hdate, hc]
      have hsp : specExtinfPairs (line :: rest) = specExtinfPairs rest := by
        rw [specExtinfPairs.eq_def]
        simp [hdate]
      rw [hdg, hpl, hsp]
      exact ih (some (hoursSince dt now)) parts h2
  | case3 line hdate pd hext =>
    intro age parts _
    have hdg : danglingExtinf [line] = true := by
      simp [danglingExtinf, hdate, hext]
    rw [hdg]
    refine ⟨fun _ => ?_, fun h => absurd h (by simp)⟩
    rw [parsePlaylistLoop.eq_def]
    simp [hdate, hext]
  | case4 line hdate pd hext l1 hbr =>
    intro age parts _
    have hdg : danglingExtinf [line, l1] = true := by
      simp [danglingExtinf, hdate, hext, hbr]
    rw [hdg]
    refine ⟨fun _ => ?_, fun h => absurd h (by simp)⟩
    rw [parsePlaylistLoop.eq_def]
    simp [hdate, hext, hbr]
  | case5 line hdate pd hext l1 hbr l2 rest2 ih =>
    intro age parts hts
    simp only [tsWellFormed, List.all_cons, Bool.and_eq_true] at hts
    obtain ⟨_, _, _, hrest⟩ := hts
    have hdg := danglingExtinf_step_byterange l2 hdate hext hbr rest2
    have hpl : parsePlaylistLoop now age parts (line :: l1 :: l2 :: rest2) =
        parsePlaylistLoop now age (hmInsert (trimS l2) (extinfDuration pd) parts) rest2 := by
      rw [parsePlaylistLoop.eq_def]
      simp [hdate, hext, hbr]
    have hsp : specExtinfPairs (line :: l1 :: l2 :: rest2) =
        (trimS l2, extinfDuration pd) :: specExtinfPairs rest2 := by
      rw [specExtinfPairs.eq_def]
      simp [hdate, hext, hbr]
    rw [hdg, hpl, hsp]
    simp only [List.foldl_cons]
    exact ih age (hmInsert (trimS l2) (extinfDuration pd) parts) hrest
  | case6 line hdate pd hext l1 rest1 hbr ih =>
    intro age parts hts
    simp only [tsWellFormed, List.all_cons, Bool.and_eq_true] at hts
    obtain ⟨_, _, hrest⟩ := hts
    have hdg := danglingExtinf_step_ref hdate hext (by simpa using hbr) rest1
    have hpl : parsePlaylistLoop now age parts (line :: l1 :: rest1) =
        parsePlaylistLoop now age (hmInsert (trimS l1) (extinfDuration pd) parts) rest1 := by
      rw [parsePlaylistLoop.eq_def]
      simp [hdate, hext, hbr]
    have hsp : specExtinfPairs (line :: l1 :: rest1) =
        (trimS l1, extinfDuration pd) :: specExtinfPairs rest1 := by
      rw [specExtinfPairs.eq_def]
      simp [hdate, hext, hbr]
    rw [hdg, hpl, hsp]
    simp only [List.foldl_cons]
    exact ih age (hmInsert (trimS l1) (extinfDuration pd) parts) hrest
  | case7 line rest hdate hext ih =>
    intro age parts hts
    simp only [tsWellFormed, List.all_cons, Bool.and_eq_true] at hts
    obtain ⟨_, hrest⟩ := hts
    have hdg := danglingExtinf_step_other hdate hext rest
    have hpl : parsePlaylistLoop now age parts (line :: rest) =
        parsePlaylistLoop now age parts rest := by
      rw [parsePlaylistLoop.eq_def]
      simp [hdate, hext]
    have hsp : specExtinfPairs (line :: rest) = specExtinfPairs rest := by
      rw [specExtinfPairs.eq_def]
      simp [hdate, hext]
    rw [hdg, hpl, hsp]
    exact ih age parts hrest

theorem stripPreS_none_of_not_startsWith {p s : String}
    (h : startsWithS p s = false) : stripPreS p s = none := by
  unfold startsWithS isPre at h
  unfold stripPreS
  cases hx : takePre p.data s.data with
  | none => rfl
  | some r => rw [hx] at h; simp at h

/-- The `parse_playlist` loop only ever fails with a parse error (`Eof` or
`InvalidTimeFormat`) — in particular never with `Empty`. -/
theorem parsePlaylistLoop_error_parse (now : Int) (lines : List String) :
    ∀ (age : Option Int) (parts : List (String × Dec)) (e : MalformedPlaylistError),
      parsePlaylistLoop now age parts lines = .error e → ∃ pe, e = .Parse pe := by
  induction lines using danglingExtinf.induct with
  | case1 =>
    intro age parts e h
    simp [parsePlaylistLoop] at h
  | case2 line rest pd hdate ih =>
    intro age parts e h
    rw [parsePlaylistLoop.eq_def] at h
    simp only [hdate] at h
    cases hc : convert_twitch_date (trimS pd) with
    | error e0 =>
      rw [hc] at h
      simp at h
      exact ⟨e0, h.symm⟩
    | ok dt =>
      rw [hc] at h
      exact ih (some (hoursSince dt now)) parts e h
  | case3 line hdate pd hext =>
    intro age parts e h
    rw [parsePlaylistLoop.eq_def] at h
    simp only [hdate, hext] at h
    simp at h
    exact ⟨.Eof, h.symm⟩
  | case4 line hdate pd hext l1 hbr =>
    intro age parts e h
    rw [parsePlaylistLoop.eq_def] at h
    simp only [hdate, hext, hbr] at h
    simp [hbr] at h
    exact ⟨.Eof, h.symm⟩
  | case5 line hdate pd hext l1 hbr l2 rest2 ih =>
    intro age parts e h
    rw [parsePlaylistLoop.eq_def] at h
    simp only [hdate, hext, hbr, if_true] at h
    exact ih age (hmInsert (trimS l2) (extinfDuration pd) parts) e h
  | case6 line hdate pd hext l1 rest1 hbr ih =>
    intro age parts e h
    rw [parsePlaylistLoop.eq_def] at h
    simp only [hdate, hext] at h
    rw [if_neg hbr] at h
    exact ih age (hmInsert (trimS l1) (extinfDuration pd) parts) e h
  | case7 line rest hdate hext ih =>
    intro age parts e h
    rw [parsePlaylistLoop.eq_def] at h
    simp only [hdate, hext] at h
    exact ih age parts e h

/-- A text without duration-tag lines scans to no pairs and leaves nothing
dangling. -/
theorem noExtinf_spec (lines : List String) :
    lines.all (fun l => !(startsWithS "#EXTINF:" l)) = true →
    danglingExtinf lines = false ∧ specExtinfPairs lines = [] := by
  induction lines with
  | nil => intro _; exact ⟨rfl, rfl⟩
  | cons line rest ih =>
    intro h
    simp only [List.all_cons, Bool.and_eq_true] at h
    obtain ⟨h1, h2⟩ := h
    have hext : stripPreS "#EXTINF:" line = none :=
      stripPreS_none_of_not_startsWith (by simpa using h1)
    obtain ⟨ihd, ihp⟩ := ih h2
    cases hdate : stripPreS STREAMED_DATE_IDENT line with
    | some d =>
      refine ⟨?_, ?_⟩
      · rw [danglingExtinf_step_date hdate rest]; exact ihd
      · rw [specExtinfPairs.eq_def]; simp [hdate, ihp]
    | none =>
      refine ⟨?_, ?_⟩
      · rw [danglingExtinf_step_other hdate hext rest]; exact ihd
      · rw [specExtinfPairs.eq_def]; simp [hdate, hext, ihp]

/-- Claim C5 (amended) — the Manifest Parser inserts, for each duration-tag
line met by the sequential scan, one entry keyed by the trimmed following
line (skipping one byte-range line), with the duration parsed as a float
defaulting to zero; provided every broadcast-timestamp line parses, it fails
with `Eof` exactly when a duration tag (or its byte-range line) is the last
line; a malformed broadcast-timestamp line instead fails with
`InvalidTimeFormat`.  The pair (`#EXTINF:9.009,`, `2.ts`) yields the entry
mapping `2.ts` to `9.009`. -/
theorem manifest_parser_follows_spec :
    (∀ (now : Int) (lines : List String), tsWellFormed lines = true →
      ((parse_playlist_lines now lines =
          .error (.Parse .Eof)) ↔ danglingExtinf lines = true) ∧
      (danglingExtinf lines = false →
        ∃ a, parse_playlist_lines now lines =
          .ok (a, (specExtinfPairs lines).foldl (fun m p => hmInsert p.1 p.2 m) []))) ∧
    (parse_playlist 0 "#EXTINF:9.009,\n2.ts" =
        .ok (none, [("2.ts", (⟨9009, -3⟩ : Dec))]) ∧
      decValue ⟨9009, -3⟩ = (9009 : Rat) / 1000) ∧
    parse_playlist 0 "#EXTINF:9.009," = .error (.Parse .Eof) := by
  refine ⟨?_, ⟨by rfl, by norm_num [decValue]⟩, by rfl⟩
  intro now lines hts
  have h := parsePlaylistLoop_spec now lines none [] hts
  refine ⟨⟨?_, h.1⟩, h.2⟩
  intro herr
  cases hx : danglingExtinf lines with
  | true => rfl
  | false =>
    obtain ⟨a, ha⟩ := h.2 hx
    rw [parse_playlist_lines, ha] at herr
    exact absurd herr (by simp)

/-- Counterexample to claim C5 as stated: in this text the duration-tag line
is the last line, yet the parser fails with `InvalidTimeFormat` (from the
malformed broadcast-timestamp line scanned first), not with `Eof`. -/
theorem manifest_parser_eof_cex :
    danglingExtinf (rustLines "#ID3-EQUIV-TDTG:bogus\n#EXTINF:1,") = true ∧
    parse_playlist 0 "#ID3-EQUIV-TDTG:bogus\n#EXTINF:1," =
      .error (.Parse .InvalidTimeFormat) := by
  exact ⟨by rfl, by rfl⟩

/-- Witness for `manifest_parser_follows_spec` at the spec §8 example. -/
theorem manifest_parser_follows_spec_witness :
    tsWellFormed ["#EXTINF:9.009,", "2.ts"] = true ∧
    danglingExtinf ["#EXTINF:9.009,", "2.ts"] = false ∧
    ∃ a, parse_playlist_lines 0 ["#EXTINF:9.009,", "2.ts"] =
      .ok (a, [("2.ts", (⟨9009, -3⟩ : Dec))]) := by
  have h := (manifest_parser_follows_spec.1 0 ["#EXTINF:9.009,", "2.ts"] (by rfl)).2 (by rfl)
  refine ⟨by rfl, by rfl, ?_⟩
  obtain ⟨a, ha⟩ := h
  refine ⟨a, ?_⟩
  rw [ha]
  rfl

/-- Claim C6 (amended) — an empty segment set is never an error of the
Manifest Parser itself: the parser fails only with parse errors, never with
the empty-playlist error, and a text with no duration-tag lines parses to the
empty mapping provided its broadcast-timestamp lines are well-formed; the
Download Orchestrator fails with the empty-playlist error before any segment
fetch whenever the parsed segment set is empty. -/
theorem empty_playlist_handling :
    (∀ (now : Int) (lines : List String) (e : MalformedPlaylistError),
      parse_playlist_lines now lines = .error e → e ≠ .Empty) ∧
    (∀ (now : Int) (lines : List String), tsWellFormed lines = true →
      lines.all (fun l => !(startsWithS "#EXTINF:" l)) = true →
      ∃ a, parse_playlist_lines now lines = .ok (a, [])) ∧
    (∀ (net : String → String → Except DownloadFileError Unit) (tc : Nat)
      (info : DownloadInfo) (folder : String), info.parts = [] →
      download_all_parts net tc info folder =
        (.error (.MalformedPlaylist .Empty), [])) := by
  refine ⟨?_, ?_, ?_⟩
  · intro now lines e h
    obtain ⟨pe, hpe⟩ := parsePlaylistLoop_error_parse now lines none [] e h
    subst hpe
    intro hx
    cases hx
  · intro now lines hts hno
    obtain ⟨hd, hp⟩ := noExtinf_spec lines hno
    obtain ⟨a, ha⟩ := (parsePlaylistLoop_spec now lines none [] hts).2 hd
    rw [hp] at ha
    exact ⟨a, ha⟩
  · intro net tc info folder h
    simp [download_all_parts, h]

/-- Counterexample to claim C6's parenthetical as stated: a text consisting
of one malformed broadcast-timestamp line has no duration/reference pairs,
yet parsing it does not succeed with an empty mapping. -/
theorem empty_playlist_cex :
    specExtinfPairs (rustLines "#ID3-EQUIV-TDTG:junkdate") = [] ∧
    parse_playlist 0 "#ID3-EQUIV-TDTG:junkdate" =
      .error (.Parse .InvalidTimeFormat) := by
  exact ⟨by rfl, by rfl⟩

/-- Witness for `empty_playlist_handling`: a pair-free text parses to the
empty mapping, and the orchestrator on an empty segment set fails with
`Empty` and performs no fetch. -/
theorem empty_playlist_handling_witness :
    tsWellFormed ["#EXT-X-VERSION:3"] = true ∧
    (∃ a, parse_playlist_lines 0 ["#EXT-X-VERSION:3"] = .ok (a, [])) ∧
    download_all_parts (fun _ _ => .ok ()) 4
      ⟨none, [], "http://h/"⟩ "scratch" = (.error (.MalformedPlaylist .Empty), []) := by
  refine ⟨by decide, ?_, ?_⟩
  · exact empty_playlist_handling.2.1 0 ["#EXT-X-VERSION:3"] (by decide) (by decide)
  · exact empty_playlist_handling.2.2 (fun _ _ => .ok ()) 4 ⟨none, [], "http://h/"⟩ "scratch" rfl

/-- Claim C1 — evaluation of `download_part` at the failing input: the
segment name carries the mute marker, unmute is attempted, the unmuted URL
fails and the muted URL succeeds.  The unmuted URL is attempted first and the
muted URL second (as the claim states), but the fallback call passes the
scratch *directory* — not the directory joined with the segment name — as the
file target, so its success returns `scratch` instead of
`scratch/1-muted.ts`: the source's fallback branch passes `folder_path` where
every other branch passes `target_path`. -/
theorem download_part_fallback_target_bug :
    download_part
      (fun url _ => if url = "http://h/1.ts"
        then (.error .DownloadBackoff : Except DownloadFileError Unit) else .ok ())
      ("1-muted.ts", ⟨0, 0⟩) "http://h/" "scratch" true =
      (.ok "scratch",
       [⟨"http://h/1.ts", "scratch/1-muted.ts"⟩, ⟨"http://h/1-muted.ts", "scratch"⟩]) ∧
    "scratch" ≠ pathJoin "scratch" "1-muted.ts" := by
  exact ⟨rfl, by decide⟩

/-- Claim C2 (amended) — segment ordering sorts ascending by the integer
recovered from each stripped base name: direct parse first; if that fails
and the name contains at least one separator, the piece after the first
separator is parsed; if that also fails (or there is no separator), the
process aborts.  On the claim's example the numeric order is produced. -/
theorem sort_parts_follows_spec :
    (∀ files : List String, files.all (fun f => (partSortKey f).isSome) = true →
      ∃ l, sort_parts files = some l ∧ files.Perm l ∧ List.Pairwise partLE l) ∧
    (∀ files : List String, files.all (fun f => (partSortKey f).isSome) = false →
      sort_parts files = none) ∧
    sort_parts ["10.ts", "2.ts", "1-muted.ts", "3-unmuted.ts"] =
      some ["1-muted.ts", "2.ts", "3-unmuted.ts", "10.ts"] := by
  refine ⟨?_, ?_, by rfl⟩
  · intro files h
    refine ⟨List.insertionSort partLE files, by simp [sort_parts, h],
      (List.perm_insertionSort partLE files).symm, ?_⟩
    exact List.sorted_insertionSort partLE files
  · intro files h
    simp [sort_parts, h]

/-- Counterexample to claim C2's recovery rule as stated ("exactly one
separator"): the stem `a-2-0` has two separators, so the claim's rule aborts,
but the source parses the piece after the first separator and succeeds. -/
theorem sort_parts_exactly_one_sep_cex :
    specSortPartsClaim ["a-2-0.ts"] = none ∧
    sort_parts ["a-2-0.ts"] = some ["a-2-0.ts"] := by
  exact ⟨rfl, rfl⟩

/-- Witness for `sort_parts_follows_spec` at the claim's example list. -/
theorem sort_parts_follows_spec_witness :
    (["10.ts", "2.ts", "1-muted.ts", "3-unmuted.ts"].all
      (fun f => (partSortKey f).isSome)) = true ∧
    ∃ l, sort_parts ["10.ts", "2.ts", "1-muted.ts", "3-unmuted.ts"] = some l ∧
      List.Perm ["10.ts", "2.ts", "1-muted.ts", "3-unmuted.ts"] l ∧
      List.Pairwise partLE l := by
  have h : (["10.ts", "2.ts", "1-muted.ts", "3-unmuted.ts"].all
      (fun f => (partSortKey f).isSome)) = true := rfl
  exact ⟨h, sort_parts_follows_spec.1 _ h⟩

/-- Claim C3 (amended) — the candidates processed by a batch run are exactly
the stored assets with status `NotStarted`, in the order the store returns
them, capped at the configured maximum; no creation-time ordering is
requested by the selection query. -/
theorem batch_selection_amended (db : List VideosModel) (maxItems : Nat) :
    (∀ v ∈ downloadCandidates db maxItems, v.status = .NotStarted) ∧
    (downloadCandidates db maxItems).length =
      min maxItems (dbFilter (fun v => v.status = .NotStarted) db).length ∧
    (∃ r, dbFilter (fun v => v.status = .NotStarted) db =
      downloadCandidates db maxItems ++ r) ∧
    ((dbFilter (fun v => v.status = .NotStarted) db).length ≤ maxItems →
      downloadCandidates db maxItems = dbFilter (fun v => v.status = .NotStarted) db) := by
  refine ⟨?_, List.length_take _ _, ?_, ?_⟩
  · intro v hv
    have hmem : v ∈ dbFilter (fun v => v.status = .NotStarted) db :=
      List.mem_of_mem_take hv
    exact of_decide_eq_true (List.mem_filter.mp hmem).2
  · exact ⟨(dbFilter (fun v => v.status = .NotStarted) db).drop maxItems,
      (List.take_append_drop _ _).symm⟩
  · intro h
    exact List.take_of_length_le h

/-- Counterexample to claim C3 as stated: with two `NotStarted` rows whose
creation times are out of store order, the processed candidates are not in
creation-time ascending order (the selection query has no `order_by`; the
claim's ordering appears only in the backpressure *count* query). -/
theorem batch_selection_order_cex :
    downloadCandidates
      [⟨1, "a", .NotStarted, 10⟩, ⟨2, "b", .NotStarted, 5⟩] 5 =
      [⟨1, "a", .NotStarted, 10⟩, ⟨2, "b", .NotStarted, 5⟩] ∧
    specCandidatesClaim
      [⟨1, "a", .NotStarted, 10⟩, ⟨2, "b", .NotStarted, 5⟩] 5 =
      [⟨2, "b", .NotStarted, 5⟩, ⟨1, "a", .NotStarted, 10⟩] ∧
    ¬ List.Pairwise (fun a b => a.createdAt ≤ b.createdAt)
      (downloadCandidates [⟨1, "a", .NotStarted, 10⟩, ⟨2, "b", .NotStarted, 5⟩] 5) := by
  refine ⟨rfl, rfl, by decide⟩

/-- Witness for `batch_selection_amended`: when the filtered set fits under
the cap, the candidates are exactly the `NotStarted` rows. -/
theorem batch_selection_amended_witness :
    downloadCandidates [⟨1, "a", .NotStarted, 10⟩, ⟨2, "b", .Downloading, 5⟩] 7 =
      dbFilter (fun v => v.status = .NotStarted)
        [⟨1, "a", .NotStarted, 10⟩, ⟨2, "b", .Downloading, 5⟩] := by
  exact (batch_selection_amended
    [⟨1, "a", .NotStarted, 10⟩, ⟨2, "b", .Downloading, 5⟩] 7).2.2.2 (by decide)

/-- Claim C7 — `download_video` fails with `TargetAlreadyExists` when the
final path exists, `TargetFolderIsNotADirectory` when the scratch path exists
but is no directory, and `TargetFolderIsNotEmpty` when it is a non-empty
directory; in each case with an empty event trace, i.e. before any network
call, segment fetch or filesystem mutation. -/
theorem download_video_preconditions (outputFolder videoId : String) (fs : FsState)
    (rest : Except DownloadError (List String) × List FetchAttempt) :
    (fs.finalExists = true →
      download_video outputFolder videoId fs rest =
        (.error (.File (.TargetAlreadyExists
          (pathJoin outputFolder (videoId ++ ".mp4")))), [])) ∧
    (fs.finalExists = false → fs.folderExists = true → fs.folderIsDir = false →
      download_video outputFolder videoId fs rest =
        (.error (.File (.TargetFolderIsNotADirectory
          (pathJoin outputFolder videoId))), [])) ∧
    (fs.finalExists = false → fs.folderExists = true → fs.folderIsDir = true →
      fs.folderNonEmpty = true →
      download_video outputFolder videoId fs rest =
        (.error (.File (.TargetFolderIsNotEmpty
          (pathJoin outputFolder videoId))), [])) := by
  refine ⟨?_, ?_, ?_⟩ <;> intros <;> simp [download_video, *]

/-- Witness for `download_video_preconditions` at the three concrete
filesystem states. -/
theorem download_video_preconditions_witness :
    download_video "out" "v1" ⟨true, false, false, false⟩ (.ok [], []) =
      (.error (.File (.TargetAlreadyExists "out/v1.mp4")), []) ∧
    download_video "out" "v1" ⟨false, true, false, false⟩ (.ok [], []) =
      (.error (.File (.TargetFolderIsNotADirectory "out/v1")), []) ∧
    download_video "out" "v1" ⟨false, true, true, true⟩ (.ok [], []) =
      (.error (.File (.TargetFolderIsNotEmpty "out/v1")), []) := by
  refine ⟨?_, ?_, ?_⟩
  · rw [(download_video_preconditions "out" "v1" ⟨true, false, false, false⟩
      (.ok [], [])).1 rfl]
    rfl
  · rw [(download_video_preconditions "out" "v1" ⟨false, true, false, false⟩
      (.ok [], [])).2.1 rfl rfl rfl]
    rfl
  · rw [(download_video_preconditions "out" "v1" ⟨false, true, true, true⟩
      (.ok [], [])).2.2 rfl rfl rfl rfl]
    rfl

/-- Claim C8 — for every orchestrator outcome, the batch client persists
`Downloading` first, then runs the download, then persists exactly one
terminal status: `Downloaded` on success, `Failed` on failure (the failure
itself is returned, not stored). -/
theorem state_machine_transitions (o : Except DownloadError String) :
    (clientDownloadVideo o).2 =
      [.persist .Downloading, .runDownload,
       .persist (match o with | .ok _ => Status.Downloaded | .error _ => Status.Failed)] ∧
    ((clientDownloadVideo o).2.filter isTerminalPersist).length = 1 ∧
    (clientDownloadVideo o).1 =
      (match o with | .ok _ => .ok () | .error e => .error e) := by
  cases o <;> simp [clientDownloadVideo, isTerminalPersist]

/-- Claim C9 — when the count of assets with status in the inclusive range
`[Downloading, Uploading]` is at or above 3, the batch run performs zero
download attempts; otherwise it processes exactly the selected candidates. -/
theorem backpressure_gate (db : List VideosModel) (maxItems : Nat) :
    (3 ≤ countDownloadedNotUploaded db → runBatch db maxItems = []) ∧
    (countDownloadedNotUploaded db < 3 →
      runBatch db maxItems = (downloadCandidates db maxItems).map (fun v => v.id)) := by
  constructor
  · intro h
    simp [runBatch, h]
  · intro h
    rw [runBatch, if_neg (by omega)]

/-- Witness for `backpressure_gate`: three in-range assets plus one
`NotStarted` candidate, and the run attempts nothing. -/
theorem backpressure_gate_witness :
    3 ≤ countDownloadedNotUploaded
      [⟨1, "a", .Downloading, 0⟩, ⟨2, "b", .Uploading, 1⟩,
       ⟨3, "c", .Downloaded, 2⟩, ⟨4, "d", .NotStarted, 3⟩] ∧
    runBatch
      [⟨1, "a", .Downloading, 0⟩, ⟨2, "b", .Uploading, 1⟩,
       ⟨3, "c", .Downloaded, 2⟩, ⟨4, "d", .NotStarted, 3⟩] 10 = [] := by
  refine ⟨by decide, ?_⟩
  exact (backpressure_gate
    [⟨1, "a", .Downloading, 0⟩, ⟨2, "b", .Uploading, 1⟩,
     ⟨3, "c", .Downloaded, 2⟩, ⟨4, "d", .NotStarted, 3⟩] 10).1 (by decide)

/-- Claim C10 — the Variant Selector is partial: a declaration line without a
`NAME="` attribute, or a declaration line not followed by two more lines,
makes it panic via an out-of-bounds index (modelled by `none`) instead of
returning a typed error. -/
theorem variant_selector_panics :
    get_playlist_from_quality_list ["#EXT-X-MEDIA:PROGRAM-ID=1"] "720p" = none ∧
    get_playlist_from_quality_list
      ["#EXT-X-MEDIA:TYPE=VIDEO,NAME=\"chunked\"", "#EXT-X-STREAM-INF:A"] "720p" =
      none := by
  exact ⟨rfl, rfl⟩

end Twba
